import Mathlib

/-!
Verification of the parser-combinator library (src/src/__init__.py) against its
natural-language specification.

The embedding is a deep AST of the library's parser classes together with an
executable, fuel-indexed evaluator `recognize` mirroring `Parser.recognize`.
Fuel is consumed at every evaluation step, so the evaluator is structurally
recursive on the fuel and kernel-computable; `recognize _ _ _ _ = none` means
"fuel exhausted" (the Python code would still be running), and we prove that
results are independent of the fuel at which they are produced.

Python raises exceptions; the two `ParseError` kinds are `NoMatch` and
`EndOfText`.  A Python exception that is *not* a `ParseError` (the
`AssertionError` from `read_at_cursor`'s isinstance assert on the `None`
cursor returned by `EndParser`, the `IndexError` from indexing a string out of
range on the negative side, the `TypeError`/`IndexError` a transformation
lambda can raise) is modelled by the distinct outcome `Crash`: no `except`
clause in the library catches those, and we prove they propagate unchanged.
-/

/-- The two `ParseError` kinds of the library, plus `Crash`, which models any
non-`ParseError` Python exception escaping (never caught by the library). -/
inductive PErr where
  | NoMatch
  | EndOfText
  | Crash
deriving DecidableEq, Repr

/-- Python values produced by recognizers: `None`, strings (a character is a
1-character string in Python), and lists. -/
inductive PValue where
  | none
  | str (s : String)
  | list (l : List PValue)

/-- A cursor: `some i` models `IndexCursor(i)` (Python ints), `none` models the
Python `None` that `EndParser.recognize` returns as its cursor. -/
abbrev Cursor := Option Int

/-- `get_start_cursor` of `StringText`. -/
def get_start_cursor : Cursor := some 0

/-- Result of `read_at_cursor`: a `(character, next-cursor)` pair or a raised
error. -/
inductive ReadResult where
  | ok (ch : Char) (next : Cursor)
  | err (e : PErr)
deriving DecidableEq, Repr

/-- Python string indexing `s[i]`: nonnegative indices from the front,
negative indices count from the end, out-of-range raises `IndexError`
(modelled as `Option.none`). -/
def pyIndex (s : String) (i : Int) : Option Char :=
  if 0 ≤ i then s.data[i.toNat]?
  else if 0 ≤ (s.length : Int) + i then s.data[((s.length : Int) + i).toNat]?
  else Option.none

/-- `StringText.read_at_cursor`: asserts the cursor is an `IndexCursor`
(the `None` cursor crashes with `AssertionError`), raises `EndOfText` when
`idx >= len(s)`, and otherwise returns `(s[idx], IndexCursor(idx + 1))`
(an out-of-range negative index raises `IndexError`, modelled as `Crash`). -/
def read_at_cursor (s : String) : Cursor → ReadResult
  | Option.none => .err .Crash
  | some i =>
    if i ≥ (s.length : Int) then .err .EndOfText
    else
      match pyIndex s i with
      | some ch => .ok ch (some (i + 1))
      | Option.none => .err .Crash

/-- Result of `Parser.recognize`: a `(processed match result, cursor)` pair or
a raised error. -/
inductive PResult where
  | ok (v : PValue) (c : Cursor)
  | err (e : PErr)

/-- The parser classes of the library.  `Predicate` carries the predicate
function, `Apply` the transformation function; a transformation returning
`Option.none` models the lambda raising a non-`ParseError` exception. -/
inductive PParser where
  | Char (ch : Char)
  | Predicate (pred : Char → Bool)
  | Range (min_ch max_ch : Char)
  | EndParser
  | LambdaParser
  | Sequence (parsers : List PParser)
  | Alternative (parsers : List PParser)
  | Apply (parser : PParser) (fn : PValue → Option PValue)
  | Many (parser : PParser)

/-- `Parser.recognize`, fuel-indexed.  Every step of evaluation consumes one
unit of fuel; `Option.none` means the fuel ran out.  The `Sequence`,
`Alternative` and `Many` loops are expressed as recursion on the list of
children (resp. on the repeated parser), which computes the same results and
cursors as the Python `for`/`while` loops.  The two `some (.ok _ _)` fallback
branches (a child of `Sequence`/`Many` whose recursive `Sequence`/`Many`
value is not a list) are unreachable, since those recursive calls always
produce list values; they are mapped to `Crash`. -/
def recognize : Nat → PParser → String → Cursor → Option PResult
  | 0, _, _, _ => Option.none
  | _ + 1, .Char ch, s, cur =>
    match read_at_cursor s cur with
    | .err e => some (.err e)
    | .ok ch2 cur2 =>
      if ch2 = ch then some (.ok (.str (String.singleton ch2)) cur2)
      else some (.err .NoMatch)
  | _ + 1, .Predicate pred, s, cur =>
    match read_at_cursor s cur with
    | .err e => some (.err e)
    | .ok ch2 cur2 =>
      if pred ch2 then some (.ok (.str (String.singleton ch2)) cur2)
      else some (.err .NoMatch)
  | _ + 1, .Range min_ch max_ch, s, cur =>
    match read_at_cursor s cur with
    | .err e => some (.err e)
    | .ok ch2 cur2 =>
      if min_ch ≤ ch2 ∧ ch2 ≤ max_ch then
        some (.ok (.str (String.singleton ch2)) cur2)
      else some (.err .NoMatch)
  | _ + 1, .EndParser, s, cur =>
    match read_at_cursor s cur with
    | .err .EndOfText => some (.ok (.str "") Option.none)
    | .err e => some (.err e)
    | .ok _ _ => some (.err .NoMatch)
  | _ + 1, .LambdaParser, _, cur => some (.ok .none cur)
  | _ + 1, .Sequence [], _, cur => some (.ok (.list []) cur)
  | fuel + 1, .Sequence (q :: qs), s, cur =>
    match recognize fuel q s cur with
    | Option.none => Option.none
    | some (.err e) => some (.err e)
    | some (.ok v cur2) =>
      match recognize fuel (.Sequence qs) s cur2 with
      | Option.none => Option.none
      | some (.err e) => some (.err e)
      | some (.ok (.list vs) cur3) => some (.ok (.list (v :: vs)) cur3)
      | some (.ok _ _) => some (.err .Crash)
  | _ + 1, .Alternative [], _, _ => some (.err .NoMatch)
  | fuel + 1, .Alternative (q :: qs), s, cur =>
    match recognize fuel q s cur with
    | Option.none => Option.none
    | some (.ok v cur2) => some (.ok v cur2)
    | some (.err .NoMatch) => recognize fuel (.Alternative qs) s cur
    | some (.err .EndOfText) => recognize fuel (.Alternative qs) s cur
    | some (.err .Crash) => some (.err .Crash)
  | fuel + 1, .Apply q fn, s, cur =>
    match recognize fuel q s cur with
    | Option.none => Option.none
    | some (.err e) => some (.err e)
    | some (.ok v cur2) =>
      match fn v with
      | some w => some (.ok w cur2)
      | Option.none => some (.err .Crash)
  | fuel + 1, .Many q, s, cur =>
    match recognize fuel q s cur with
    | Option.none => Option.none
    | some (.err .NoMatch) => some (.ok (.list []) cur)
    | some (.err .EndOfText) => some (.ok (.list []) cur)
    | some (.err .Crash) => some (.err .Crash)
    | some (.ok v cur2) =>
      match recognize fuel (.Many q) s cur2 with
      | Option.none => Option.none
      | some (.err e) => some (.err e)
      | some (.ok (.list vs) cur3) => some (.ok (.list (v :: vs)) cur3)
      | some (.ok _ _) => some (.err .Crash)

/-- Iterating a Python value (`for item in x` / `list.extend(x)`): lists give
their items, strings give their characters as 1-character strings, `None` is
not iterable (`TypeError`). -/
def iterElems : PValue → Option (List PValue)
  | .list l => some l
  | .str s => some (s.data.map fun ch => .str (String.singleton ch))
  | .none => Option.none

/-- `_flatten(lst)`: `result.extend(item)` for each item, concatenating. -/
def flatten : List PValue → Option (List PValue)
  | [] => some []
  | item :: rest => do
    let xs ← iterElems item
    let ys ← flatten rest
    pure (xs ++ ys)

/-- `''.join` over a list of values: all items must be strings. -/
def join_items : List PValue → Option String
  | [] => some ""
  | .str s :: rest => (join_items rest).map fun t => s ++ t
  | _ => Option.none

/-- The `lambda lst: ''.join(lst)` used by `String` and `Join`. -/
def join_fn : PValue → Option PValue
  | .list l => (join_items l).map .str
  | .str s => some (.str s)
  | .none => Option.none

/-- The `lambda lst: [lst[0]] + lst[1]` used by `Many1` (list concatenation
requires `lst[1]` to be a list; anything else raises). -/
def many1_fix : PValue → Option PValue
  | .list (v0 :: .list l :: _) => some (.list (v0 :: l))
  | _ => Option.none

/-- The `fix_list` closure of `SepBy1`: `[lst[0]] + _flatten(lst[1])`.
(Python indexing of a non-list argument is unreachable from `SepBy1`, whose
`Sequence` always hands `fix_list` a two-element list.) -/
def fix_list : PValue → Option PValue
  | .list (v0 :: v1 :: _) => do
    let items ← iterElems v1
    let fl ← flatten items
    pure (.list (v0 :: fl))
  | _ => Option.none

/-- `String(s)`: `Apply(Sequence([Char(c) for c in s]), ''.join)`. -/
def StringP (t : String) : PParser :=
  .Apply (.Sequence (t.data.map PParser.Char)) join_fn

/-- `Optional(p)`: `Alternative([p, LambdaParser()])`. -/
def OptionalP (p : PParser) : PParser :=
  .Alternative [p, .LambdaParser]

/-- `Many1(p)`: `Apply(Sequence([p, Many(p)]), lambda lst: [lst[0]] + lst[1])`. -/
def Many1 (p : PParser) : PParser :=
  .Apply (.Sequence [p, .Many p]) many1_fix

/-- `SepBy1(p, sep)`:
`Apply(Sequence([p, Many(Sequence([sep, p]))]), fix_list)`. -/
def SepBy1 (p sep : PParser) : PParser :=
  .Apply (.Sequence [p, .Many (.Sequence [sep, p])]) fix_list

/-- `p` evaluated on `s` at `cur` yields outcome `r` at some fuel (i.e. the
Python call returns/raises `r`). -/
def Recog (p : PParser) (s : String) (cur : Cursor) (r : PResult) : Prop :=
  ∃ n, recognize n p s cur = some r

/-- The failure kinds on which `Many` stops and `Alternative` retries:
the two `ParseError` kinds. -/
def StopErr (e : PErr) : Prop :=
  e = .NoMatch ∨ e = .EndOfText

/-- A maximal run of `p`: a chain of successful applications threading the
cursor, terminated at a cursor where `p` fails with a `ParseError`. -/
inductive ManyChain (p : PParser) (s : String) : Cursor → List PValue → Cursor → Prop where
  | stop (c : Cursor) (e : PErr) (he : StopErr e) (hf : Recog p s c (.err e)) :
      ManyChain p s c [] c
  | step (c c1 c' : Cursor) (v : PValue) (vs : List PValue)
      (hs : Recog p s c (.ok v c1)) (ht : ManyChain p s c1 vs c') :
      ManyChain p s c (v :: vs) c'

/-- All parsers of a list succeed in order, threading the cursor, with the
given list of result values. -/
inductive SeqChain (s : String) : List PParser → Cursor → List PValue → Cursor → Prop where
  | nil (c : Cursor) : SeqChain s [] c [] c
  | cons (q : PParser) (qs : List PParser) (c c1 c' : Cursor) (v : PValue)
      (vs : List PValue) (hs : Recog q s c (.ok v c1))
      (ht : SeqChain s qs c1 vs c') :
      SeqChain s (q :: qs) c (v :: vs) c'

/-- Running a list of parsers in order, some prefix succeeds and then the next
parser fails with `e` (the first failing child and its error). -/
inductive FirstFail (s : String) : List PParser → Cursor → PErr → Prop where
  | here (q : PParser) (qs : List PParser) (c : Cursor) (e : PErr)
      (hf : Recog q s c (.err e)) : FirstFail s (q :: qs) c e
  | there (q : PParser) (qs : List PParser) (c c1 : Cursor) (v : PValue)
      (e : PErr) (hs : Recog q s c (.ok v c1)) (ht : FirstFail s qs c1 e) :
      FirstFail s (q :: qs) c e

/-- The run structure of `SepBy1` after its first `p`: alternating successful
`sep` and `p` applications (both values recorded, in order), terminated where
`Sequence([sep, p])` fails with a `ParseError`. -/
inductive SepChain (p sep : PParser) (s : String) : Cursor → List PValue → Cursor → Prop where
  | stop (c : Cursor) (e : PErr) (he : StopErr e)
      (hf : Recog (.Sequence [sep, p]) s c (.err e)) : SepChain p sep s c [] c
  | step (c c1 c2 c' : Cursor) (sv pv : PValue) (rest : List PValue)
      (hsep : Recog sep s c (.ok sv c1)) (hp : Recog p s c1 (.ok pv c2))
      (ht : SepChain p sep s c2 rest c') :
      SepChain p sep s c (sv :: pv :: rest) c'

theorem recognize_zero (p : PParser) (s : String) (cur : Cursor) :
    recognize 0 p s cur = Option.none := rfl

theorem recognize_seq_cons (n : Nat) (q : PParser) (qs : List PParser) (s : String) (cur : Cursor) :
    recognize (n + 1) (.Sequence (q :: qs)) s cur =
      match recognize n q s cur with
      | Option.none => Option.none
      | some (.err e) => some (.err e)
      | some (.ok v cur2) =>
        match recognize n (.Sequence qs) s cur2 with
        | Option.none => Option.none
        | some (.err e) => some (.err e)
        | some (.ok (.list vs) cur3) => some (.ok (.list (v :: vs)) cur3)
        | some (.ok _ _) => some (.err .Crash) := rfl

theorem recognize_alt_cons (n : Nat) (q : PParser) (qs : List PParser) (s : String) (cur : Cursor) :
    recognize (n + 1) (.Alternative (q :: qs)) s cur =
      match recognize n q s cur with
      | Option.none => Option.none
      | some (.ok v cur2) => some (.ok v cur2)
      | some (.err .NoMatch) => recognize n (.Alternative qs) s cur
      | some (.err .EndOfText) => recognize n (.Alternative qs) s cur
      | some (.err .Crash) => some (.err .Crash) := rfl

theorem recognize_apply (n : Nat) (q : PParser) (fn : PValue → Option PValue) (s : String) (cur : Cursor) :
    recognize (n + 1) (.Apply q fn) s cur =
      match recognize n q s cur with
      | Option.none => Option.none
      | some (.err e) => some (.err e)
      | some (.ok v cur2) =>
        match fn v with
        | some w => some (.ok w cur2)
        | Option.none => some (.err .Crash) := rfl

theorem recognize_many (n : Nat) (q : PParser) (s : String) (cur : Cursor) :
    recognize (n + 1) (.Many q) s cur =
      match recognize n q s cur with
      | Option.none => Option.none
      | some (.err .NoMatch) => some (.ok (.list []) cur)
      | some (.err .EndOfText) => some (.ok (.list []) cur)
      | some (.err .Crash) => some (.err .Crash)
      | some (.ok v cur2) =>
        match recognize n (.Many q) s cur2 with
        | Option.none => Option.none
        | some (.err e) => some (.err e)
        | some (.ok (.list vs) cur3) => some (.ok (.list (v :: vs)) cur3)
        | some (.ok _ _) => some (.err .Crash) := rfl

theorem recognize_mono : ∀ (n : Nat) (p : PParser) (s : String) (cur : Cursor) (r : PResult),
    recognize n p s cur = some r → recognize (n + 1) p s cur = some r := by
  intro n
  induction n with
  | zero => intro p s cur r h; exact Option.noConfusion h
  | succ m ih =>
    intro p s cur r h
    match p with
    | .Char ch => exact h
    | .Predicate pred => exact h
    | .Range a b => exact h
    | .EndParser => exact h
    | .LambdaParser => exact h
    | .Sequence [] => exact h
    | .Sequence (q :: qs) =>
      rw [recognize_seq_cons m] at h
      rw [recognize_seq_cons (m + 1)]
      cases hq : recognize m q s cur with
      | none => rw [hq] at h; exact Option.noConfusion h
      | some rq =>
        rw [hq] at h
        rw [ih q s cur rq hq]
        cases rq with
        | err e => exact h
        | ok v cur2 =>
          have h2 : (match recognize m (.Sequence qs) s cur2 with
              | Option.none => Option.none
              | some (.err e) => some (.err e)
              | some (.ok (.list vs) cur3) => some (.ok (.list (v :: vs)) cur3)
              | some (.ok _ _) => some (.err .Crash)) = some r := h
          show (match recognize (m + 1) (.Sequence qs) s cur2 with
              | Option.none => Option.none
              | some (.err e) => some (.err e)
              | some (.ok (.list vs) cur3) => some (.ok (.list (v :: vs)) cur3)
              | some (.ok _ _) => some (.err .Crash)) = some r
          cases hs : recognize m (.Sequence qs) s cur2 with
          | none => rw [hs] at h2; exact Option.noConfusion h2
          | some rs =>
            rw [hs] at h2
            rw [ih (.Sequence qs) s cur2 rs hs]
            exact h2
    | .Alternative [] => exact h
    | .Alternative (q :: qs) =>
      rw [recognize_alt_cons m] at h
      rw [recognize_alt_cons (m + 1)]
      cases hq : recognize m q s cur with
      | none => rw [hq] at h; exact Option.noConfusion h
      | some rq =>
        rw [hq] at h
        rw [ih q s cur rq hq]
        cases rq with
        | ok v cur2 => exact h
        | err e =>
          cases e with
          | NoMatch => exact ih (.Alternative qs) s cur r h
          | EndOfText => exact ih (.Alternative qs) s cur r h
          | Crash => exact h
    | .Apply q fn =>
      rw [recognize_apply m] at h
      rw [recognize_apply (m + 1)]
      cases hq : recognize m q s cur with
      | none => rw [hq] at h; exact Option.noConfusion h
      | some rq =>
        rw [hq] at h
        rw [ih q s cur rq hq]
        exact h
    | .Many q =>
      rw [recognize_many m] at h
      rw [recognize_many (m + 1)]
      cases hq : recognize m q s cur with
      | none => rw [hq] at h; exact Option.noConfusion h
      | some rq =>
        rw [hq] at h
        rw [ih q s cur rq hq]
        cases rq with
        | err e =>
          cases e with
          | NoMatch => exact h
          | EndOfText => exact h
          | Crash => exact h
        | ok v cur2 =>
          have h2 : (match recognize m (.Many q) s cur2 with
              | Option.none => Option.none
              | some (.err e) => some (.err e)
              | some (.ok (.list vs) cur3) => some (.ok (.list (v :: vs)) cur3)
              | some (.ok _ _) => some (.err .Crash)) = some r := h
          show (match recognize (m + 1) (.Many q) s cur2 with
              | Option.none => Option.none
              | some (.err e) => some (.err e)
              | some (.ok (.list vs) cur3) => some (.ok (.list (v :: vs)) cur3)
              | some (.ok _ _) => some (.err .Crash)) = some r
          cases hs : recognize m (.Many q) s cur2 with
          | none => rw [hs] at h2; exact Option.noConfusion h2
          | some rs =>
            rw [hs] at h2
            rw [ih (.Many q) s cur2 rs hs]
            exact h2

theorem recognize_mono_le {n m : Nat} (hnm : n ≤ m) (p : PParser) (s : String) (cur : Cursor)
    (r : PResult) (h : recognize n p s cur = some r) : recognize m p s cur = some r := by
  induction m with
  | zero => cases Nat.le_zero.mp hnm; exact h
  | succ k ihk =>
    rcases Nat.lt_or_ge n (k + 1) with hlt | hge
    · exact recognize_mono k p s cur r (ihk (Nat.lt_succ_iff.mp hlt))
    · cases Nat.le_antisymm hnm hge; exact h

theorem recognize_det {p : PParser} {s : String} {cur : Cursor} {n m : Nat} {r r' : PResult}
    (h : recognize n p s cur = some r) (h' : recognize m p s cur = some r') : r = r' := by
  rcases Nat.le_total n m with hle | hle
  · have h2 := recognize_mono_le hle p s cur r h
    rw [h2] at h'
    exact Option.some.inj h'
  · have h2 := recognize_mono_le hle p s cur r' h'
    rw [h2] at h
    exact (Option.some.inj h).symm

theorem Recog_det {p : PParser} {s : String} {cur : Cursor} {r r' : PResult}
    (h : Recog p s cur r) (h' : Recog p s cur r') : r = r' := by
  obtain ⟨n, hn⟩ := h
  obtain ⟨m, hm⟩ := h'
  exact recognize_det hn hm

theorem many_err_crash : ∀ (n : Nat) (q : PParser) (s : String) (cur : Cursor) (e : PErr),
    recognize n (.Many q) s cur = some (.err e) → e = .Crash := by
  intro n
  induction n with
  | zero => intro q s cur e h; exact Option.noConfusion h
  | succ m ih =>
    intro q s cur e h
    rw [recognize_many m] at h
    cases hq : recognize m q s cur with
    | none => rw [hq] at h; exact Option.noConfusion h
    | some rq =>
      rw [hq] at h
      cases rq with
      | err e1 =>
        cases e1 with
        | NoMatch => exact PResult.noConfusion (Option.some.inj h)
        | EndOfText => exact PResult.noConfusion (Option.some.inj h)
        | Crash =>
          injection Option.some.inj h with h3
          exact h3.symm
      | ok v cur2 =>
        have h2 : (match recognize m (.Many q) s cur2 with
            | Option.none => Option.none
            | some (.err e) => some (.err e)
            | some (.ok (.list vs) cur3) => some (.ok (.list (v :: vs)) cur3)
            | some (.ok _ _) => some (.err .Crash)) = some (PResult.err e) := h
        cases hs : recognize m (.Many q) s cur2 with
        | none => rw [hs] at h2; exact Option.noConfusion h2
        | some rs =>
          rw [hs] at h2
          cases rs with
          | err e2 =>
            injection Option.some.inj h2 with h3
            exact h3 ▸ ih q s cur2 e2 hs
          | ok w cur3 =>
            cases w with
            | list vs => exact PResult.noConfusion (Option.some.inj h2)
            | str t =>
              injection Option.some.inj h2 with h3
              exact h3.symm
            | none =>
              injection Option.some.inj h2 with h3
              exact h3.symm

theorem many_ok_chain : ∀ (n : Nat) (q : PParser) (s : String) (cur : Cursor) (v : PValue)
    (c' : Cursor), recognize n (.Many q) s cur = some (.ok v c') →
    ∃ items, v = .list items ∧ ManyChain q s cur items c' := by
  intro n
  induction n with
  | zero => intro q s cur v c' h; exact Option.noConfusion h
  | succ m ih =>
    intro q s cur v c' h
    rw [recognize_many m] at h
    cases hq : recognize m q s cur with
    | none => rw [hq] at h; exact Option.noConfusion h
    | some rq =>
      rw [hq] at h
      cases rq with
      | err e1 =>
        cases e1 with
        | NoMatch =>
          obtain ⟨hv, hc⟩ := PResult.ok.inj (Option.some.inj h)
          exact ⟨[], hv.symm, hc ▸ ManyChain.stop cur .NoMatch (Or.inl rfl) ⟨m, hq⟩⟩
        | EndOfText =>
          obtain ⟨hv, hc⟩ := PResult.ok.inj (Option.some.inj h)
          exact ⟨[], hv.symm, hc ▸ ManyChain.stop cur .EndOfText (Or.inr rfl) ⟨m, hq⟩⟩
        | Crash => exact PResult.noConfusion (Option.some.inj h)
      | ok w cur2 =>
        have h2 : (match recognize m (.Many q) s cur2 with
            | Option.none => Option.none
            | some (.err e) => some (.err e)
            | some (.ok (.list vs) cur3) => some (.ok (.list (w :: vs)) cur3)
            | some (.ok _ _) => some (.err .Crash)) = some (PResult.ok v c') := h
        cases hs : recognize m (.Many q) s cur2 with
        | none => rw [hs] at h2; exact Option.noConfusion h2
        | some rs =>
          rw [hs] at h2
          cases rs with
          | err e2 => exact PResult.noConfusion (Option.some.inj h2)
          | ok w2 cur3 =>
            cases w2 with
            | list vs =>
              obtain ⟨hv, hc⟩ := PResult.ok.inj (Option.some.inj h2)
              obtain ⟨items2, hi2, hchain⟩ := ih q s cur2 (.list vs) cur3 hs
              cases PValue.list.inj hi2
              exact ⟨w :: vs, hv.symm,
                hc ▸ ManyChain.step cur cur2 cur3 w vs ⟨m, hq⟩ hchain⟩
            | str t => exact PResult.noConfusion (Option.some.inj h2)
            | none => exact PResult.noConfusion (Option.some.inj h2)

theorem many_chain_complete {q : PParser} {s : String} {c : Cursor} {items : List PValue}
    {c' : Cursor} (h : ManyChain q s c items c') :
    Recog (.Many q) s c (.ok (.list items) c') := by
  induction h with
  | stop c e he hf =>
    obtain ⟨n, hn⟩ := hf
    refine ⟨n + 1, ?_⟩
    rcases he with rfl | rfl <;> rw [recognize_many n, hn]
  | step c c1 c' v vs hs ht ih =>
    obtain ⟨n1, h1⟩ := hs
    obtain ⟨n2, h2⟩ := ih
    refine ⟨max n1 n2 + 1, ?_⟩
    rw [recognize_many (max n1 n2),
      recognize_mono_le (Nat.le_max_left n1 n2) _ _ _ _ h1]
    show (match recognize (max n1 n2) (.Many q) s c1 with
        | Option.none => Option.none
        | some (PResult.err e) => some (PResult.err e)
        | some (PResult.ok (PValue.list vs2) cur3) =>
          some (PResult.ok (PValue.list (v :: vs2)) cur3)
        | some (PResult.ok _ _) => some (PResult.err PErr.Crash)) =
      some (PResult.ok (PValue.list (v :: vs)) c')
    rw [recognize_mono_le (Nat.le_max_right n1 n2) _ _ _ _ h2]

theorem seq_ok_chain : ∀ (n : Nat) (qs : List PParser) (s : String) (cur : Cursor) (v : PValue)
    (c' : Cursor), recognize n (.Sequence qs) s cur = some (.ok v c') →
    ∃ vs, v = .list vs ∧ SeqChain s qs cur vs c' := by
  intro n
  induction n with
  | zero => intro qs s cur v c' h; exact Option.noConfusion h
  | succ m ih =>
    intro qs s cur v c' h
    cases qs with
    | nil =>
      obtain ⟨hv, hc⟩ := PResult.ok.inj (Option.some.inj h)
      exact ⟨[], hv.symm, hc ▸ SeqChain.nil cur⟩
    | cons q qs =>
      rw [recognize_seq_cons m] at h
      cases hq : recognize m q s cur with
      | none => rw [hq] at h; exact Option.noConfusion h
      | some rq =>
        rw [hq] at h
        cases rq with
        | err e1 => exact PResult.noConfusion (Option.some.inj h)
        | ok w cur2 =>
          have h2 : (match recognize m (.Sequence qs) s cur2 with
              | Option.none => Option.none
              | some (.err e) => some (.err e)
              | some (.ok (.list vs) cur3) => some (.ok (.list (w :: vs)) cur3)
              | some (.ok _ _) => some (.err .Crash)) = some (PResult.ok v c') := h
          cases hs : recognize m (.Sequence qs) s cur2 with
          | none => rw [hs] at h2; exact Option.noConfusion h2
          | some rs =>
            rw [hs] at h2
            cases rs with
            | err e2 => exact PResult.noConfusion (Option.some.inj h2)
            | ok w2 cur3 =>
              cases w2 with
              | list vs =>
                obtain ⟨hv, hc⟩ := PResult.ok.inj (Option.some.inj h2)
                obtain ⟨vs2, hv2, hchain⟩ := ih qs s cur2 (.list vs) cur3 hs
                cases PValue.list.inj hv2
                exact ⟨w :: vs, hv.symm,
                  hc ▸ SeqChain.cons q qs cur cur2 cur3 w vs ⟨m, hq⟩ hchain⟩
              | str t => exact PResult.noConfusion (Option.some.inj h2)
              | none => exact PResult.noConfusion (Option.some.inj h2)

theorem seq_chain_complete {s : String} {qs : List PParser} {c : Cursor} {vs : List PValue}
    {c' : Cursor} (h : SeqChain s qs c vs c') :
    Recog (.Sequence qs) s c (.ok (.list vs) c') := by
  induction h with
  | nil c => exact ⟨1, rfl⟩
  | cons q qs c c1 c' v vs hs ht ih =>
    obtain ⟨n1, h1⟩ := hs
    obtain ⟨n2, h2⟩ := ih
    refine ⟨max n1 n2 + 1, ?_⟩
    rw [recognize_seq_cons (max n1 n2),
      recognize_mono_le (Nat.le_max_left n1 n2) _ _ _ _ h1]
    show (match recognize (max n1 n2) (.Sequence qs) s c1 with
        | Option.none => Option.none
        | some (PResult.err e) => some (PResult.err e)
        | some (PResult.ok (PValue.list vs2) cur3) =>
          some (PResult.ok (PValue.list (v :: vs2)) cur3)
        | some (PResult.ok _ _) => some (PResult.err PErr.Crash)) =
      some (PResult.ok (PValue.list (v :: vs)) c')
    rw [recognize_mono_le (Nat.le_max_right n1 n2) _ _ _ _ h2]

theorem seq_err_firstFail : ∀ (n : Nat) (qs : List PParser) (s : String) (cur : Cursor)
    (e : PErr), recognize n (.Sequence qs) s cur = some (.err e) → FirstFail s qs cur e := by
  intro n
  induction n with
  | zero => intro qs s cur e h; exact Option.noConfusion h
  | succ m ih =>
    intro qs s cur e h
    cases qs with
    | nil => exact PResult.noConfusion (Option.some.inj h)
    | cons q qs =>
      rw [recognize_seq_cons m] at h
      cases hq : recognize m q s cur with
      | none => rw [hq] at h; exact Option.noConfusion h
      | some rq =>
        rw [hq] at h
        cases rq with
        | err e1 =>
          injection Option.some.inj h with h3
          exact h3 ▸ FirstFail.here q qs cur e1 ⟨m, hq⟩
        | ok w cur2 =>
          have h2 : (match recognize m (.Sequence qs) s cur2 with
              | Option.none => Option.none
              | some (.err e) => some (.err e)
              | some (.ok (.list vs) cur3) => some (.ok (.list (w :: vs)) cur3)
              | some (.ok _ _) => some (.err .Crash)) = some (PResult.err e) := h
          cases hs : recognize m (.Sequence qs) s cur2 with
          | none => rw [hs] at h2; exact Option.noConfusion h2
          | some rs =>
            rw [hs] at h2
            cases rs with
            | err e2 =>
              injection Option.some.inj h2 with h3
              exact h3 ▸ FirstFail.there q qs cur cur2 w e2 ⟨m, hq⟩ (ih qs s cur2 e2 hs)
            | ok w2 cur3 =>
              cases w2 with
              | list vs => exact PResult.noConfusion (Option.some.inj h2)
              | str t =>
                obtain ⟨vs2, hv2, _⟩ := seq_ok_chain m qs s cur2 (.str t) cur3 hs
                exact PValue.noConfusion hv2
              | none =>
                obtain ⟨vs2, hv2, _⟩ := seq_ok_chain m qs s cur2 .none cur3 hs
                exact PValue.noConfusion hv2

theorem firstFail_complete {s : String} {qs : List PParser} {c : Cursor} {e : PErr}
    (h : FirstFail s qs c e) : Recog (.Sequence qs) s c (.err e) := by
  induction h with
  | here q qs c e hf =>
    obtain ⟨n, hn⟩ := hf
    exact ⟨n + 1, by rw [recognize_seq_cons n, hn]⟩
  | there q qs c c1 v e hs ht ih =>
    obtain ⟨n1, h1⟩ := hs
    obtain ⟨n2, h2⟩ := ih
    refine ⟨max n1 n2 + 1, ?_⟩
    rw [recognize_seq_cons (max n1 n2),
      recognize_mono_le (Nat.le_max_left n1 n2) _ _ _ _ h1]
    show (match recognize (max n1 n2) (.Sequence qs) s c1 with
        | Option.none => Option.none
        | some (PResult.err e2) => some (PResult.err e2)
        | some (PResult.ok (PValue.list vs2) cur3) =>
          some (PResult.ok (PValue.list (v :: vs2)) cur3)
        | some (PResult.ok _ _) => some (PResult.err PErr.Crash)) =
      some (PResult.err e)
    rw [recognize_mono_le (Nat.le_max_right n1 n2) _ _ _ _ h2]

theorem alt_all_fail : ∀ (qs : List PParser) (s : String) (cur : Cursor),
    (∀ q ∈ qs, ∃ e, StopErr e ∧ Recog q s cur (.err e)) →
    Recog (.Alternative qs) s cur (.err .NoMatch) := by
  intro qs
  induction qs with
  | nil => intro s cur _; exact ⟨1, rfl⟩
  | cons q qs ih =>
    intro s cur hall
    obtain ⟨e, he, n1, h1⟩ := hall q (List.mem_cons_self q qs)
    obtain ⟨n2, h2⟩ := ih s cur fun q' hq' => hall q' (List.mem_cons_of_mem q hq')
    refine ⟨max n1 n2 + 1, ?_⟩
    rw [recognize_alt_cons (max n1 n2),
      recognize_mono_le (Nat.le_max_left n1 n2) _ _ _ _ h1]
    rcases he with rfl | rfl <;>
      exact recognize_mono_le (Nat.le_max_right n1 n2) _ _ _ _ h2

theorem apply_ok_cases (n : Nat) (q : PParser) (fn : PValue → Option PValue) (s : String)
    (cur : Cursor) (v : PValue) (c' : Cursor)
    (h : recognize n (.Apply q fn) s cur = some (.ok v c')) :
    ∃ w, Recog q s cur (.ok w c') ∧ fn w = some v := by
  match n, h with
  | 0, h => exact Option.noConfusion h
  | m + 1, h =>
    rw [recognize_apply m] at h
    cases hq : recognize m q s cur with
    | none => rw [hq] at h; exact Option.noConfusion h
    | some rq =>
      rw [hq] at h
      cases rq with
      | err e1 => exact PResult.noConfusion (Option.some.inj h)
      | ok w c2 =>
        have h2 : (match fn w with
            | some w2 => some (PResult.ok w2 c2)
            | Option.none => some (PResult.err PErr.Crash)) = some (PResult.ok v c') := h
        cases hf : fn w with
        | none => rw [hf] at h2; exact PResult.noConfusion (Option.some.inj h2)
        | some w2 =>
          rw [hf] at h2
          obtain ⟨hv, hc⟩ := PResult.ok.inj (Option.some.inj h2)
          exact ⟨w, ⟨m, hc ▸ hq⟩, hv ▸ hf⟩

theorem apply_err_cases (n : Nat) (q : PParser) (fn : PValue → Option PValue) (s : String)
    (cur : Cursor) (e : PErr)
    (h : recognize n (.Apply q fn) s cur = some (.err e)) :
    Recog q s cur (.err e)
      ∨ ∃ v c2, Recog q s cur (.ok v c2) ∧ fn v = Option.none ∧ e = .Crash := by
  match n, h with
  | 0, h => exact Option.noConfusion h
  | m + 1, h =>
    rw [recognize_apply m] at h
    cases hq : recognize m q s cur with
    | none => rw [hq] at h; exact Option.noConfusion h
    | some rq =>
      rw [hq] at h
      cases rq with
      | err e1 =>
        injection Option.some.inj h with h3
        exact Or.inl ⟨m, h3 ▸ hq⟩
      | ok w c2 =>
        have h2 : (match fn w with
            | some w2 => some (PResult.ok w2 c2)
            | Option.none => some (PResult.err PErr.Crash)) = some (PResult.err e) := h
        cases hf : fn w with
        | some w2 => rw [hf] at h2; exact PResult.noConfusion (Option.some.inj h2)
        | none =>
          rw [hf] at h2
          injection Option.some.inj h2 with h3
          exact Or.inr ⟨w, c2, ⟨m, hq⟩, hf, h3.symm⟩

/-- C7: the end-marker recognizer (`EndParser`) succeeds, producing the empty
value `''` (with the terminal `None` cursor), exactly when reading at the
current cursor raises `EndOfText`; whenever an element is still available at
the cursor, it fails with `NoMatch`. -/
theorem endParser_succeeds_iff_exhausted :
    ∀ (s : String) (c : Cursor) (n : Nat),
      (recognize (n + 1) .EndParser s c = some (.ok (.str "") Option.none)
        ↔ read_at_cursor s c = .err .EndOfText)
      ∧ (∀ ch c2, read_at_cursor s c = .ok ch c2 →
          recognize (n + 1) .EndParser s c = some (.err .NoMatch)) := by
  intro s c n
  have hu : recognize (n + 1) .EndParser s c =
      (match read_at_cursor s c with
        | .err .EndOfText => some (.ok (.str "") Option.none)
        | .err e => some (.err e)
        | .ok _ _ => some (.err .NoMatch)) := rfl
  cases hr : read_at_cursor s c with
  | ok ch c2 =>
    have heq : recognize (n + 1) .EndParser s c = some (.err .NoMatch) :=
      hu.trans (by rw [hr])
    refine ⟨?_, ?_⟩
    · rw [heq]; simp
    · intro ch2 c3 _; exact heq
  | err e =>
    cases e with
    | EndOfText =>
      have heq : recognize (n + 1) .EndParser s c = some (.ok (.str "") Option.none) :=
        hu.trans (by rw [hr])
      refine ⟨?_, ?_⟩
      · rw [heq]; simp
      · intro ch2 c3 h3; exact ReadResult.noConfusion h3
    | NoMatch =>
      have heq : recognize (n + 1) .EndParser s c = some (.err .NoMatch) :=
        hu.trans (by rw [hr])
      refine ⟨?_, ?_⟩
      · rw [heq]; simp
      · intro ch2 c3 h3; exact ReadResult.noConfusion h3
    | Crash =>
      have heq : recognize (n + 1) .EndParser s c = some (.err .Crash) :=
        hu.trans (by rw [hr])
      refine ⟨?_, ?_⟩
      · rw [heq]; simp
      · intro ch2 c3 h3; exact ReadResult.noConfusion h3

/-- C7 witness: on `""` at index 0 the end marker succeeds with the empty
value; on `"ab"` at index 0 (an element is available) it fails with
`NoMatch`. -/
theorem endParser_succeeds_iff_exhausted_witness :
    recognize 1 .EndParser "" (some 0) = some (.ok (.str "") Option.none)
    ∧ recognize 1 .EndParser "ab" (some 0) = some (.err .NoMatch) :=
  ⟨(endParser_succeeds_iff_exhausted "" (some 0) 0).1.mpr rfl,
    (endParser_succeeds_iff_exhausted "ab" (some 0) 0).2 'a' (some 1) rfl⟩

/-- C8: `recognize` is deterministic: on a fixed parser graph, text and
cursor, any two invocations that return an outcome return the same outcome
(same success value and successor cursor, or same failure kind); the fuel
index is an artifact of the embedding and does not influence the result. -/
theorem recognize_deterministic :
    ∀ (p : PParser) (s : String) (c : Cursor) (n m : Nat) (r r' : PResult),
      recognize n p s c = some r → recognize m p s c = some r' → r = r' :=
  fun _ _ _ _ _ _ _ h h' => recognize_det h h'

/-- C8 witness: two runs of `Char('a')` on `"abc"` at different fuels agree. -/
theorem recognize_deterministic_witness :
    (PResult.ok (.str "a") (some 1)) = (PResult.ok (.str "a") (some 1)) :=
  recognize_deterministic (.Char 'a') "abc" (some 0) 1 5
    (PResult.ok (.str "a") (some 1)) (PResult.ok (.str "a") (some 1)) rfl rfl

/-- C9: `Sequence([])` always succeeds, producing the empty list and leaving
the cursor unchanged; consequently `String('')` always succeeds, producing
the empty string, without consuming input. -/
theorem sequence_empty_and_empty_string :
    ∀ (s : String) (c : Cursor) (n : Nat),
      recognize (n + 1) (.Sequence []) s c = some (.ok (.list []) c)
      ∧ recognize (n + 2) (StringP "") s c = some (.ok (.str "") c) :=
  fun _ _ _ => ⟨rfl, rfl⟩

/-- C10: if `p` fails with `EndOfText`, `Optional(p)` does not propagate it:
the `Alternative` retries the epsilon branch (`LambdaParser`) from the
original cursor, so `Optional(p)` succeeds with value `None` and the original
cursor. -/
theorem optional_absorbs_endOfText :
    ∀ (p : PParser) (s : String) (c : Cursor) (n : Nat),
      recognize n p s c = some (.err .EndOfText) →
      Recog (OptionalP p) s c (.ok .none c) := by
  intro p s c n h
  match n, h with
  | m + 1, h =>
    refine ⟨m + 3, ?_⟩
    have h1 := recognize_mono (m + 1) p s c _ h
    show recognize ((m + 2) + 1) (.Alternative [p, .LambdaParser]) s c
      = some (.ok .none c)
    rw [recognize_alt_cons (m + 2), h1]
    rw [recognize_alt_cons (m + 1)]
    exact rfl

/-- C10 witness: `Char('a')` on empty input fails with `EndOfText`, and
`Optional(Char('a'))` there succeeds with `None` at the original cursor. -/
theorem optional_absorbs_endOfText_witness :
    Recog (OptionalP (.Char 'a')) "" (some 0) (.ok .none (some 0)) :=
  optional_absorbs_endOfText (.Char 'a') "" (some 0) 1 rfl

/-- C3: `Alternative` tries its children in order, every attempt starting from
the original cursor `c`: a child's success is returned unchanged; a child
failing with `NoMatch` or `EndOfText` makes the remaining children be tried
from the same original cursor `c` (the recursive call is at `c`, not at
wherever the failed branch stopped); `Alternative([])` fails with `NoMatch`;
and if every child fails with a `ParseError`, the whole `Alternative` fails
with `NoMatch`. -/
theorem alternative_ordered_from_original_cursor :
    ∀ (p : PParser) (ps : List PParser) (s : String) (c : Cursor) (n : Nat),
      (∀ v c', recognize n p s c = some (.ok v c') →
        recognize (n + 1) (.Alternative (p :: ps)) s c = some (.ok v c'))
      ∧ (∀ e, StopErr e → recognize n p s c = some (.err e) →
        recognize (n + 1) (.Alternative (p :: ps)) s c
          = recognize n (.Alternative ps) s c)
      ∧ recognize (n + 1) (.Alternative []) s c = some (.err .NoMatch)
      ∧ ((∀ q, q ∈ p :: ps → ∃ e, StopErr e ∧ Recog q s c (.err e)) →
        Recog (.Alternative (p :: ps)) s c (.err .NoMatch)) := by
  intro p ps s c n
  refine ⟨?_, ?_, rfl, ?_⟩
  · intro v c' h
    rw [recognize_alt_cons n, h]
  · intro e he h
    rw [recognize_alt_cons n, h]
    rcases he with rfl | rfl <;> rfl
  · exact alt_all_fail (p :: ps) s c

/-- C3 witness: with `Alternative([Char('a'), Char('b')])` on `"bcd"`, the
first child fails with `NoMatch` and the rest is retried from the original
cursor 0; on `"zzz"` every child fails and the alternative fails `NoMatch`. -/
theorem alternative_ordered_from_original_cursor_witness :
    (recognize 2 (.Alternative [.Char 'a', .Char 'b']) "bcd" (some 0)
      = recognize 1 (.Alternative [.Char 'b']) "bcd" (some 0))
    ∧ Recog (.Alternative [.Char 'a', .Char 'b']) "zzz" (some 0) (.err .NoMatch) :=
  ⟨(alternative_ordered_from_original_cursor (.Char 'a') [.Char 'b'] "bcd"
      (some 0) 1).2.1 .NoMatch (Or.inl rfl) rfl,
    (alternative_ordered_from_original_cursor (.Char 'a') [.Char 'b'] "zzz"
      (some 0) 1).2.2.2 (by
        intro q hq
        rcases List.mem_cons.mp hq with rfl | hq2
        · exact ⟨.NoMatch, Or.inl rfl, 1, rfl⟩
        · rcases List.mem_cons.mp hq2 with rfl | h3
          · exact ⟨.NoMatch, Or.inl rfl, 1, rfl⟩
          · cases h3)⟩

/-- C4: `Many(p)` never raises a `ParseError`: any error it propagates is the
`Crash` outcome (a non-`ParseError` Python exception raised by `p` itself),
never `NoMatch` or `EndOfText`; whenever it returns a value, that value is the
list of values of the maximal run of successful applications of `p` (empty if
the first attempt fails) and the cursor is the one after the last successful
repetition (the starting cursor for an empty run); conversely every maximal
run is returned by `Many(p)` at some fuel. -/
theorem many_never_fails_and_returns_maximal_run :
    ∀ (p : PParser) (s : String) (c : Cursor) (n : Nat),
      (∀ e, recognize n (.Many p) s c = some (.err e) → e = .Crash)
      ∧ (∀ v c', recognize n (.Many p) s c = some (.ok v c') →
          ∃ items, v = .list items ∧ ManyChain p s c items c')
      ∧ (∀ items c', ManyChain p s c items c' →
          Recog (.Many p) s c (.ok (.list items) c')) :=
  fun p s c n =>
    ⟨fun e h => many_err_crash n p s c e h,
      fun v c' h => many_ok_chain n p s c v c' h,
      fun _ _ h => many_chain_complete h⟩

/-- C4 witness: `Many(Predicate(isdigit))` on `"12x"` succeeds with the
maximal run `['1', '2']` stopping at index 2. -/
theorem many_never_fails_and_returns_maximal_run_witness :
    ∃ items, PValue.list [.str "1", .str "2"] = .list items
      ∧ ManyChain (.Predicate Char.isDigit) "12x" (some 0) items (some 2) :=
  (many_never_fails_and_returns_maximal_run (.Predicate Char.isDigit) "12x"
    (some 0) 9).2.1 (.list [.str "1", .str "2"]) (some 2) rfl

/-- C5: `Sequence` applies its children in order, threading the cursor from
each success into the next child: a returned value is exactly the ordered
list of the child results with the final cursor (and conversely any such
chain of child successes is returned at some fuel), and a raised error is
exactly the error of the first failing child after a chain of successes of
the children before it (and conversely). -/
theorem sequence_threads_cursor_fails_first :
    ∀ (ps : List PParser) (s : String) (c : Cursor) (n : Nat),
      (∀ v c', recognize n (.Sequence ps) s c = some (.ok v c') →
        ∃ vs, v = .list vs ∧ SeqChain s ps c vs c')
      ∧ (∀ vs c', SeqChain s ps c vs c' →
        Recog (.Sequence ps) s c (.ok (.list vs) c'))
      ∧ (∀ e, recognize n (.Sequence ps) s c = some (.err e) → FirstFail s ps c e)
      ∧ (∀ e, FirstFail s ps c e → Recog (.Sequence ps) s c (.err e)) :=
  fun ps s c n =>
    ⟨fun v c' h => seq_ok_chain n ps s c v c' h,
      fun _ _ h => seq_chain_complete h,
      fun e h => seq_err_firstFail n ps s c e h,
      fun _ h => firstFail_complete h⟩

/-- C5 witness: `Sequence([Char('a'), Char('b')])` on `"abc"` succeeds with
`['a', 'b']` at index 2; on `"ax"` the second child is the first failing
child, with `NoMatch`. -/
theorem sequence_threads_cursor_fails_first_witness :
    (∃ vs, PValue.list [.str "a", .str "b"] = .list vs
      ∧ SeqChain "abc" [.Char 'a', .Char 'b'] (some 0) vs (some 2))
    ∧ FirstFail "ax" [.Char 'a', .Char 'b'] (some 0) .NoMatch :=
  ⟨(sequence_threads_cursor_fails_first [.Char 'a', .Char 'b'] "abc"
      (some 0) 5).1 (.list [.str "a", .str "b"]) (some 2) rfl,
    (sequence_threads_cursor_fails_first [.Char 'a', .Char 'b'] "ax"
      (some 0) 5).2.2.1 .NoMatch rfl⟩

/-- C6 counterexample: at the integer-index cursor `-1` on the empty string,
the index is *not* at-or-past the end (`-1 < 0 = len("")`), yet
`read_at_cursor` returns no `(character, successor-cursor)` pair and no
`EndOfText`: Python raises `IndexError` (the `Crash` outcome).  So, for
negative integer-index cursors beyond `-len(s)`, the claim's "otherwise
returns the character of s at index i together with a cursor at index i+1"
fails. -/
theorem read_at_cursor_negative_index_counterexample :
    ¬ ((-1 : Int) ≥ ((("" : String).length : Nat) : Int))
    ∧ read_at_cursor "" (some (-1)) = .err .Crash :=
  ⟨by decide, rfl⟩

/-- C6 amended: for every backing string `s` and every *nonnegative*
integer-index cursor `i`, `read_at_cursor` fails with `EndOfText` when
`i >= len(s)`, and otherwise returns the character of `s` at index `i`
together with a cursor at index `i + 1`; reading twice at the same cursor
yields identical results.  (For negative `i` the code follows Python
indexing: `-len(s) <= i < 0` reads from the end of the string, and
`i < -len(s)` raises `IndexError` instead of `EndOfText`.) -/
theorem read_at_cursor_spec (s : String) (i : Int) (hi : 0 ≤ i) :
    (i ≥ (s.length : Int) → read_at_cursor s (some i) = .err .EndOfText)
    ∧ (¬ i ≥ (s.length : Int) →
        ∃ hlt : i.toNat < s.data.length,
          read_at_cursor s (some i) = .ok (s.data.get ⟨i.toNat, hlt⟩) (some (i + 1)))
    ∧ (∀ r1 r2 : ReadResult, read_at_cursor s (some i) = r1 →
        read_at_cursor s (some i) = r2 → r1 = r2) := by
  refine ⟨?_, ?_, fun r1 r2 h1 h2 => h1.symm.trans h2⟩
  · intro hge
    show (if i ≥ (s.length : Int) then ReadResult.err .EndOfText
      else match pyIndex s i with
        | some ch => .ok ch (some (i + 1))
        | Option.none => .err .Crash) = .err .EndOfText
    rw [if_pos hge]
  · intro hnge
    have hlt : i.toNat < s.data.length := by
      have hlen : s.length = s.data.length := rfl
      omega
    refine ⟨hlt, ?_⟩
    show (if i ≥ (s.length : Int) then ReadResult.err .EndOfText
      else match pyIndex s i with
        | some ch => .ok ch (some (i + 1))
        | Option.none => .err .Crash)
      = .ok (s.data.get ⟨i.toNat, hlt⟩) (some (i + 1))
    rw [if_neg hnge]
    have hpy : pyIndex s i = some (s.data.get ⟨i.toNat, hlt⟩) := by
      simp only [pyIndex, if_pos hi]
      rw [List.getElem?_eq_getElem hlt]
      exact rfl
    rw [hpy]

/-- C6 witness: reading `"ab"` at index 0 returns `'a'` and the cursor 1. -/
theorem read_at_cursor_spec_witness :
    ∃ hlt : (0 : Int).toNat < ("ab" : String).data.length,
      read_at_cursor "ab" (some 0)
        = .ok (("ab" : String).data.get ⟨(0 : Int).toNat, hlt⟩) (some (0 + 1)) :=
  (read_at_cursor_spec "ab" 0 (by decide)).2.1 (by decide)

theorem seqChain_pair_inv {s : String} {a b : PParser} {c : Cursor} {vs : List PValue}
    {c' : Cursor} (h : SeqChain s [a, b] c vs c') :
    ∃ va c1 vb, Recog a s c (.ok va c1) ∧ Recog b s c1 (.ok vb c') ∧ vs = [va, vb] := by
  cases h with
  | cons q qs cc c1 cc' v vs2 hs ht =>
    cases ht with
    | cons q2 qs2 cc2 c2 cc2' w ws2 hs2 ht2 =>
      cases ht2 with
      | nil => exact ⟨v, c1, w, hs, hs2, rfl⟩

/-- C2 counterexample: on empty input, `Char('a')` fails its very first
attempt with `EndOfText`, and `Many1(Char('a'))` propagates exactly that
`EndOfText` — it does *not* fail with `NoMatch` (so `Many1` can surface a
failure kind other than `NoMatch`, and "fails with NoMatch iff the first
attempt fails" is false when the first attempt fails with `EndOfText`). -/
theorem many1_surfaces_endOfText_counterexample :
    recognize 1 (.Char 'a') "" (some 0) = some (.err .EndOfText)
    ∧ Recog (Many1 (.Char 'a')) "" (some 0) (.err .EndOfText)
    ∧ ¬ Recog (Many1 (.Char 'a')) "" (some 0) (.err .NoMatch) := by
  refine ⟨rfl, ⟨4, rfl⟩, ?_⟩
  rintro ⟨n, hn⟩
  have h4 : recognize 4 (Many1 (.Char 'a')) "" (some 0) = some (.err .EndOfText) := rfl
  have hd := recognize_det hn h4
  exact PErr.noConfusion (PResult.err.inj hd)

/-- C2 amended: `Many1(p)` raises a `ParseError` if and only if `p`'s very
first attempt at the given cursor raises that same `ParseError`: the failure
kind of the first attempt (`NoMatch` or `EndOfText`) is propagated unchanged,
so `Many1(p)` fails with `NoMatch` exactly when `p`'s first attempt fails
with `NoMatch`, and with `EndOfText` exactly when it fails with
`EndOfText`. -/
theorem many1_fails_iff_first_attempt_fails :
    ∀ (p : PParser) (s : String) (c : Cursor) (e : PErr), StopErr e →
      (Recog (Many1 p) s c (.err e) ↔ Recog p s c (.err e)) := by
  intro p s c e he
  constructor
  · rintro ⟨n, hn⟩
    rcases apply_err_cases n (.Sequence [p, .Many p]) many1_fix s c e hn with
      hseq | ⟨v, c2, hok, hfn, rfl⟩
    · obtain ⟨nn, hs⟩ := hseq
      have hff := seq_err_firstFail nn [p, .Many p] s c e hs
      cases hff with
      | here q qs cc e2 hf => exact hf
      | there q qs cc c1 w e2 hs1 ht =>
        cases ht with
        | here q2 qs2 cc2 e3 hf2 =>
          obtain ⟨nm, hm⟩ := hf2
          have hcr := many_err_crash nm p s c1 e hm
          rcases he with rfl | rfl <;> exact PErr.noConfusion hcr
        | there q2 qs2 cc2 c3 w2 e3 hs2 ht2 => cases ht2
    · rcases he with hx | hx <;> exact PErr.noConfusion hx
  · rintro ⟨n, hn⟩
    refine ⟨n + 2, ?_⟩
    show recognize ((n + 1) + 1) (.Apply (.Sequence [p, .Many p]) many1_fix) s c
      = some (.err e)
    rw [recognize_apply (n + 1), recognize_seq_cons n, hn]

/-- C2 witness: `Many1(Char('a'))` on `"b"` fails with `NoMatch` because the
first attempt of `Char('a')` fails with `NoMatch` there. -/
theorem many1_fails_iff_first_attempt_fails_witness :
    Recog (Many1 (.Char 'a')) "b" (some 0) (.err .NoMatch) :=
  (many1_fails_iff_first_attempt_fails (.Char 'a') "b" (some 0) .NoMatch
    (Or.inl rfl)).mpr ⟨1, rfl⟩

theorem manyChain_pairs_sepChain {p sep : PParser} {s : String} {c : Cursor}
    {items : List PValue} {c' : Cursor}
    (h : ManyChain (.Sequence [sep, p]) s c items c') :
    ∃ rest, flatten items = some rest ∧ SepChain p sep s c rest c' := by
  induction h with
  | stop c e he hf => exact ⟨[], rfl, SepChain.stop c e he hf⟩
  | step c c1 c' v vs hs ht ih =>
    obtain ⟨rest, hfl, hchain⟩ := ih
    obtain ⟨nv, hnv⟩ := hs
    obtain ⟨vs2, hv2, hsc⟩ := seq_ok_chain nv [sep, p] s c v c1 hnv
    obtain ⟨sv, cm, pv, hsep, hp, hvs2⟩ := seqChain_pair_inv hsc
    subst hvs2
    subst hv2
    refine ⟨sv :: pv :: rest, ?_,
      SepChain.step c cm c1 c' sv pv rest hsep hp hchain⟩
    simp [flatten, iterElems, hfl]

/-- C1 counterexample: `SepBy1(Char('a'), Char(','))` on `"a,a"` produces
`['a', ',', 'a']`: the separator's value `','` (produced by `Char(',')` at
index 1) appears in the result, which therefore differs from the list
`['a', 'a']` of the values produced by the applications of `p` alone — the
separator values are *not* discarded. -/
theorem sepBy1_discards_separators_counterexample :
    recognize 20 (SepBy1 (.Char 'a') (.Char ',')) "a,a" (some 0)
      = some (.ok (.list [.str "a", .str ",", .str "a"]) (some 3))
    ∧ recognize 5 (.Char ',') "a,a" (some 1) = some (.ok (.str ",") (some 2))
    ∧ (PValue.str ",") ∈ [PValue.str "a", PValue.str ",", PValue.str "a"]
    ∧ [PValue.str "a", PValue.str ",", PValue.str "a"]
        ≠ [PValue.str "a", PValue.str "a"] := by
  refine ⟨rfl, rfl, by simp, ?_⟩
  intro h
  have hlen := congrArg List.length h
  simp at hlen

/-- C1 amended: when `SepBy1(p, sep)` succeeds, its value is the value of the
first application of `p` followed by the *interleaved* values of the
successive `(sep, p)` pairs — for each further pair, the separator's value
and then `p`'s value, in order.  Separator values are therefore included in
(not absent from) the result. -/
theorem sepBy1_interleaves_separator_values :
    ∀ (p sep : PParser) (s : String) (c : Cursor) (n : Nat) (v : PValue) (c' : Cursor),
      recognize n (SepBy1 p sep) s c = some (.ok v c') →
      ∃ v0 c0 rest, Recog p s c (.ok v0 c0) ∧ SepChain p sep s c0 rest c'
        ∧ v = .list (v0 :: rest) := by
  intro p sep s c n v c' h
  obtain ⟨w, hw, hfix⟩ :=
    apply_ok_cases n (.Sequence [p, .Many (.Sequence [sep, p])]) fix_list s c v c' h
  obtain ⟨nw, hnw⟩ := hw
  obtain ⟨vs, hweq, hsc⟩ := seq_ok_chain nw _ s c w c' hnw
  obtain ⟨v0, c0, mv, hp0, hmany, hvs⟩ := seqChain_pair_inv hsc
  obtain ⟨nm, hnm⟩ := hmany
  obtain ⟨items, hmveq, hmchain⟩ := many_ok_chain nm _ s c0 mv c' hnm
  obtain ⟨rest, hfl, hsep⟩ := manyChain_pairs_sepChain hmchain
  subst hvs
  subst hmveq
  subst hweq
  have hcomp : fix_list (.list [v0, .list items]) = some (.list (v0 :: rest)) := by
    simp [fix_list, iterElems, hfl]
  rw [hcomp] at hfix
  exact ⟨v0, c0, rest, hp0, hsep, (Option.some.inj hfix).symm⟩

/-- C1 witness: on `"a,a"`, `SepBy1(Char('a'), Char(','))` produces the
first `'a'` followed by the interleaved `(sep, p)` values `',', 'a'`. -/
theorem sepBy1_interleaves_separator_values_witness :
    ∃ v0 c0 rest, Recog (.Char 'a') "a,a" (some 0) (.ok v0 c0)
      ∧ SepChain (.Char 'a') (.Char ',') "a,a" c0 rest (some 3)
      ∧ (PValue.list [.str "a", .str ",", .str "a"]) = .list (v0 :: rest) :=
  sepBy1_interleaves_separator_values (.Char 'a') (.Char ',') "a,a" (some 0) 20
    (.list [.str "a", .str ",", .str "a"]) (some 3) rfl
